import Mathlib

/-!
Verification of the QT (Quiet Time) scripture-reference service: a shallow
embedding of `src/app.py`.  Strings are modelled as `List Char`; the two
regular expressions of `parse_bible_text` are embedded as specialised
backtracking matchers; the Python dict used by `get_qt_schedule` is modelled
as an insertion-ordered association list; the external collaborators
(`pytz`, HTTP fetch, BeautifulSoup extraction) are modelled as explicit
parameters.
-/

/-! ## Character classes

`[가-힣]` is the Hangul-syllable block U+AC00 .. U+D7A3.  `\d` is modelled as
the ASCII digits and `\s` (and `str.strip`) as the whitespace characters
relevant here (space, tab, LF, CR, VT, FF, NBSP); Python's Unicode `\s`
additionally covers rarer code points that play no role in any claim. -/

def isHangul (c : Char) : Bool :=
  decide (44032 ≤ c.toNat) && decide (c.toNat ≤ 55203)

def isDigitCh (c : Char) : Bool :=
  c.isDigit

def isSpaceCh (c : Char) : Bool :=
  decide (c.toNat = 32) || decide (c.toNat = 9) || decide (c.toNat = 10) ||
  decide (c.toNat = 13) || decide (c.toNat = 11) || decide (c.toNat = 12) ||
  decide (c.toNat = 160)

/-- Length of the maximal prefix of `l` whose characters satisfy `p`. -/
def runLen (p : Char → Bool) : List Char → Nat
  | [] => 0
  | c :: cs => if p c then runLen p cs + 1 else 0

/-- The slice `s[i:j]` of the text, as in Python. -/
def sliceStr (s : List Char) (i j : Nat) : List Char :=
  (s.drop i).take (j - i)

/-- The character at position `i`, if any. -/
def charAt? (s : List Char) (i : Nat) : Option Char :=
  (s.drop i).head?

/-- `int` on a string of decimal digits. -/
def digitsToNat (l : List Char) : Nat :=
  l.foldl (fun a c => a * 10 + (c.toNat - 48)) 0

/-- `str.strip()`: remove leading and trailing whitespace. -/
def strip (s : List Char) : List Char :=
  ((s.dropWhile isSpaceCh).reverse.dropWhile isSpaceCh).reverse

/-! ## The range pattern

`([가-힣]+[0-9]*서?)\s*(\d+):(\d+)[~-](?:(\d+):)?(\d+)` (`pattern_range` in
`parse_bible_text`).  A match at a position is reconstructed by the
backtracking discipline of Python `re`:

* `[가-힣]+` can only usefully take the whole maximal Hangul run: with a
  shorter run the following `[0-9]*` is forced empty and `서?` can consume at
  most the next Hangul character, after which `\s*\d+` fails on the remaining
  Hangul; the only surviving shortened alternative (run minus one, with `서?`
  consuming the final `서`) reproduces a state already tried with the full
  run, so it adds nothing.
* `[0-9]*` is tried from the longest digit run downwards (`tryDigitsRange`).
* `서?` first consumes a `서`, then retries without (`tailRange`).
* `\s*` and each `(\d+)` are forced to their maximal runs because the
  character required right after them can never itself be whitespace
  (resp. a digit).
* the optional `(?:(\d+):)?` is tried first; if the final `(\d+)` then has
  no digit to consume, the regex backtracks and leaves the group unmatched
  (`restRange`). -/

structure GMatch where
  g1 : List Char
  ch1 : Nat
  vs1 : Nat
  ch2 : Option Nat
  vs2 : Nat
  stop : Nat
deriving DecidableEq, Repr

/-- Match `\s*(\d+):(\d+)[~-](?:(\d+):)?(\d+)` at position `p`, the whole
match having started at position `i` (so group 1 is `s[i:p]`). -/
def restRange (s : List Char) (i p : Nat) : Option GMatch :=
  let q := p + runLen isSpaceCh (s.drop p)
  let a := runLen isDigitCh (s.drop q)
  if a = 0 then none else
  if charAt? s (q + a) ≠ some ':' then none else
  let b := runLen isDigitCh (s.drop (q + a + 1))
  if b = 0 then none else
  match charAt? s (q + a + 1 + b) with
  | none => none
  | some sep =>
    if sep = '~' ∨ sep = '-' then
      let r := q + a + 1 + b + 1
      let c := runLen isDigitCh (s.drop r)
      if c = 0 then none else
      let ch1 := digitsToNat (sliceStr s q (q + a))
      let vs1 := digitsToNat (sliceStr s (q + a + 1) (q + a + 1 + b))
      if charAt? s (r + c) = some ':' then
        let e := runLen isDigitCh (s.drop (r + c + 1))
        if e = 0 then
          some ⟨sliceStr s i p, ch1, vs1, none, digitsToNat (sliceStr s r (r + c)), r + c⟩
        else
          some ⟨sliceStr s i p, ch1, vs1, some (digitsToNat (sliceStr s r (r + c))),
                digitsToNat (sliceStr s (r + c + 1) (r + c + 1 + e)), r + c + 1 + e⟩
      else
        some ⟨sliceStr s i p, ch1, vs1, none, digitsToNat (sliceStr s r (r + c)), r + c⟩
    else none

/-- The `서?` choice point: consume a `서` if present, else (or on failure)
continue without it. -/
def tailRange (s : List Char) (i p : Nat) : Option GMatch :=
  if charAt? s p = some '서' then
    match restRange s i (p + 1) with
    | some m => some m
    | none => restRange s i p
  else restRange s i p

/-- The `[0-9]*` choice point: `k` digits after the Hangul run, tried from
the longest run downwards. -/
def tryDigitsRange (s : List Char) (i h : Nat) : Nat → Option GMatch
  | 0 => tailRange s i (i + h)
  | k + 1 =>
    match tailRange s i (i + h + (k + 1)) with
    | some m => some m
    | none => tryDigitsRange s i h k

/-- Attempt a `pattern_range` match anchored at position `i`. -/
def matchRangeAt (s : List Char) (i : Nat) : Option GMatch :=
  let h := runLen isHangul (s.drop i)
  if h = 0 then none
  else tryDigitsRange s i h (runLen isDigitCh (s.drop (i + h)))

/-! ## The single pattern

`([가-힣]+[0-9]*서?)\s*(\d+):(\d+)` (`pattern_single`), same discipline. -/

structure SMatch where
  g1 : List Char
  ch : Nat
  vs : Nat
  stop : Nat
deriving DecidableEq, Repr

def restSingle (s : List Char) (i p : Nat) : Option SMatch :=
  let q := p + runLen isSpaceCh (s.drop p)
  let a := runLen isDigitCh (s.drop q)
  if a = 0 then none else
  if charAt? s (q + a) ≠ some ':' then none else
  let b := runLen isDigitCh (s.drop (q + a + 1))
  if b = 0 then none else
  some ⟨sliceStr s i p, digitsToNat (sliceStr s q (q + a)),
        digitsToNat (sliceStr s (q + a + 1) (q + a + 1 + b)), q + a + 1 + b⟩

def tailSingle (s : List Char) (i p : Nat) : Option SMatch :=
  if charAt? s p = some '서' then
    match restSingle s i (p + 1) with
    | some m => some m
    | none => restSingle s i p
  else restSingle s i p

def tryDigitsSingle (s : List Char) (i h : Nat) : Nat → Option SMatch
  | 0 => tailSingle s i (i + h)
  | k + 1 =>
    match tailSingle s i (i + h + (k + 1)) with
    | some m => some m
    | none => tryDigitsSingle s i h k

def matchSingleAt (s : List Char) (i : Nat) : Option SMatch :=
  let h := runLen isHangul (s.drop i)
  if h = 0 then none
  else tryDigitsSingle s i h (runLen isDigitCh (s.drop (i + h)))

/-! ## `finditer`

Python `re.finditer` scans positions left to right, yields each
(non-overlapping) match and resumes at its end; our patterns never match the
empty string, so every match strictly advances the position.  The scan is
written with fuel `s.length + 1`, enough for every position `0 .. length`. -/

def findFromRange (s : List Char) : Nat → Nat → List GMatch
  | 0, _ => []
  | fuel + 1, i =>
    if s.length < i then [] else
    match matchRangeAt s i with
    | some m => m :: findFromRange s fuel m.stop
    | none => findFromRange s fuel (i + 1)

def findIterRange (s : List Char) : List GMatch :=
  findFromRange s (s.length + 1) 0

def findFromSingle (s : List Char) : Nat → Nat → List SMatch
  | 0, _ => []
  | fuel + 1, i =>
    if s.length < i then [] else
    match matchSingleAt s i with
    | some m => m :: findFromSingle s fuel m.stop
    | none => findFromSingle s fuel (i + 1)

def findIterSingle (s : List Char) : List SMatch :=
  findFromSingle s (s.length + 1) 0

/-! ## The book table and `parse_bible_text` -/

def bookMapping : List (List Char × Nat) :=
  [("창세기".data, 1), ("출애굽기".data, 2), ("레위기".data, 3), ("민수기".data, 4),
   ("신명기".data, 5), ("여호수아".data, 6), ("사사기".data, 7), ("룻기".data, 8),
   ("사무엘상".data, 9), ("사무엘하".data, 10), ("열왕기상".data, 11), ("열왕기하".data, 12),
   ("역대상".data, 13), ("역대하".data, 14), ("에스라".data, 15), ("느헤미야".data, 16),
   ("에스더".data, 17), ("욥기".data, 18), ("시편".data, 19), ("잠언".data, 20),
   ("전도서".data, 21), ("아가".data, 22), ("이사야".data, 23), ("예레미야".data, 24),
   ("예레미야애가".data, 25), ("에스겔".data, 26), ("다니엘".data, 27), ("호세아".data, 28),
   ("요엘".data, 29), ("아모스".data, 30), ("오바댜".data, 31), ("요나".data, 32),
   ("미가".data, 33), ("나훔".data, 34), ("하박국".data, 35), ("스바냐".data, 36),
   ("학개".data, 37), ("스가랴".data, 38), ("말라기".data, 39), ("마태복음".data, 40),
   ("마가복음".data, 41), ("누가복음".data, 42), ("요한복음".data, 43), ("사도행전".data, 44),
   ("로마서".data, 45), ("고린도전서".data, 46), ("고린도후서".data, 47), ("갈라디아서".data, 48),
   ("에베소서".data, 49), ("빌립보서".data, 50), ("골로새서".data, 51), ("데살로니가전서".data, 52),
   ("데살로니가후서".data, 53), ("디모데전서".data, 54), ("디모데후서".data, 55), ("디도서".data, 56),
   ("빌레몬서".data, 57), ("히브리서".data, 58), ("야고보서".data, 59), ("베드로전서".data, 60),
   ("베드로후서".data, 61), ("요한일서".data, 62), ("요한이서".data, 63), ("요한삼서".data, 64),
   ("유다서".data, 65), ("요한계시록".data, 66)]

/-- `book_mapping.get(raw)`. -/
def bookGet (k : List Char) : Option Nat :=
  (bookMapping.find? (fun p => p.1 == k)).map (fun p => p.2)

/-- `str.replace(pat, rep)` for a two-character pattern and a two-character
replacement: non-overlapping occurrences, left to right. -/
def replacePair (p1 p2 r1 r2 : Char) : List Char → List Char
  | [] => []
  | [c] => [c]
  | c1 :: c2 :: rest =>
    if c1 = p1 ∧ c2 = p2 then r1 :: r2 :: replacePair p1 p2 r1 r2 rest
    else c1 :: replacePair p1 p2 r1 r2 (c2 :: rest)

/-- `raw.replace('일서','1서').replace('이서','2서').replace('삼서','3서')`. -/
def ordinalAlias (raw : List Char) : List Char :=
  replacePair '삼' '서' '3' '서'
    (replacePair '이' '서' '2' '서'
      (replacePair '일' '서' '1' '서' raw))

/-- The book lookup of `parse_bible_text`: exact `get`, then the
ordinal-alias fallback. -/
def resolveBook (raw : List Char) : Option Nat :=
  match bookGet raw with
  | some b => some b
  | none => bookGet (ordinalAlias raw)

/-- One parsed verse-range dict `{'book', 'chapter', 'start', 'end'}` (the
`end` key is a Lean keyword, rendered `stop`). -/
structure VerseUnit where
  book : Nat
  chapter : Nat
  start : Nat
  stop : Nat
deriving DecidableEq, Repr

/-- The units appended for one resolved range match: two boundary verses if
`start_ch != end_ch`, else a single intra-chapter unit. -/
def emitRange (bk : Nat) (m : GMatch) : List VerseUnit :=
  let endCh := m.ch2.getD m.ch1
  if m.ch1 ≠ endCh then
    [⟨bk, m.ch1, m.vs1, m.vs1⟩, ⟨bk, endCh, m.vs2, m.vs2⟩]
  else
    [⟨bk, m.ch1, m.vs1, m.vs2⟩]

/-- The `for m in pattern_range.finditer(...)` loop: skip matches whose book
does not resolve, return on the first that does. -/
def rangeLoop : List GMatch → Option (List VerseUnit)
  | [] => none
  | m :: rest =>
    match resolveBook m.g1 with
    | some bk => some (emitRange bk m)
    | none => rangeLoop rest

/-- The `for m in pattern_single.finditer(...)` loop. -/
def singleLoop : List SMatch → Option (List VerseUnit)
  | [] => none
  | m :: rest =>
    match resolveBook m.g1 with
    | some bk => some [⟨bk, m.ch, m.vs, m.vs⟩]
    | none => singleLoop rest

def parse_bible_text (s : List Char) : List VerseUnit :=
  match rangeLoop (findIterRange s) with
  | some r => r
  | none =>
    match singleLoop (findIterSingle s) with
    | some r => r
    | none => []

/-- Whether the final `Warning: Failed to parse ...` line is printed: both
loops fell through (so `results` is empty) and the stripped input is
non-empty. -/
def parse_logs_failure (s : List Char) : Bool :=
  (rangeLoop (findIterRange s)).isNone &&
  (singleLoop (findIterSingle s)).isNone &&
  !(strip s).isEmpty

/-! ## Lemmas about the two tier loops -/

theorem rangeLoop_eq_none (l : List GMatch) (h : ∀ m ∈ l, resolveBook m.g1 = none) :
    rangeLoop l = none := by
  induction l with
  | nil => rfl
  | cons m rest ih =>
    have hm := h m (List.mem_cons_self m rest)
    simp only [rangeLoop, hm]
    exact ih (fun m2 hm2 => h m2 (List.mem_cons_of_mem m hm2))

theorem rangeLoop_first_resolvable (pre post : List GMatch) (m : GMatch) (bk : Nat)
    (hpre : ∀ m2 ∈ pre, resolveBook m2.g1 = none) (hm : resolveBook m.g1 = some bk) :
    rangeLoop (pre ++ m :: post) = some (emitRange bk m) := by
  induction pre with
  | nil => simp only [List.nil_append, rangeLoop, hm]
  | cons p pre2 ih =>
    have hp := hpre p (List.mem_cons_self p pre2)
    simp only [List.cons_append, rangeLoop, hp]
    exact ih (fun m2 hm2 => hpre m2 (List.mem_cons_of_mem p hm2))

theorem singleLoop_first_resolvable (pre post : List SMatch) (m : SMatch) (bk : Nat)
    (hpre : ∀ m2 ∈ pre, resolveBook m2.g1 = none) (hm : resolveBook m.g1 = some bk) :
    singleLoop (pre ++ m :: post) = some [⟨bk, m.ch, m.vs, m.vs⟩] := by
  induction pre with
  | nil => simp only [List.nil_append, singleLoop, hm]
  | cons p pre2 ih =>
    have hp := hpre p (List.mem_cons_self p pre2)
    simp only [List.cons_append, singleLoop, hp]
    exact ih (fun m2 hm2 => hpre m2 (List.mem_cons_of_mem p hm2))

/-! ## C1: cross-chapter ranges -/

/-- C1 (amended): if the first range-form match of the text has a resolvable
book name and an explicit second chapter number that DIFFERS from the first,
parse emits exactly the two boundary units, in order.  (As frozen, without
the "differs" condition, the claim fails: an explicit equal second chapter is
collapsed to one intra-chapter unit, see the counterexample.) -/
theorem parse_cross_chapter_pair (s : List Char) (m : GMatch) (rest : List GMatch)
    (bk c2 : Nat) (h1 : findIterRange s = m :: rest) (h2 : resolveBook m.g1 = some bk)
    (h3 : m.ch2 = some c2) (h4 : c2 ≠ m.ch1) :
    parse_bible_text s = [⟨bk, m.ch1, m.vs1, m.vs1⟩, ⟨bk, c2, m.vs2, m.vs2⟩] := by
  have hloop : rangeLoop (findIterRange s) = some (emitRange bk m) := by
    rw [h1]; simpa using rangeLoop_first_resolvable [] rest m bk (by simp) h2
  have hemit : emitRange bk m = [⟨bk, m.ch1, m.vs1, m.vs1⟩, ⟨bk, c2, m.vs2, m.vs2⟩] := by
    simp only [emitRange, h3, Option.getD_some]
    rw [if_pos (Ne.symm h4)]
  simp only [parse_bible_text, hloop, hemit]

/-- Witness for C1: "민수기 23:27~24:9" parses to the two boundary units. -/
theorem parse_cross_chapter_pair_witness :
    parse_bible_text "민수기 23:27~24:9".data =
      [⟨4, 23, 27, 27⟩, ⟨4, 24, 9, 9⟩] := by
  exact parse_cross_chapter_pair "민수기 23:27~24:9".data
    ⟨"민수기".data, 23, 27, some 24, 9, 14⟩ [] 4 24
    (by decide) (by decide) (by decide) (by decide)

/-- Counterexample for C1 as frozen: "민수기 23:27~23:29" has an explicit
second chapter number (23), yet parse emits ONE unit, not the two units the
claim prescribes, because the code only splits when `start_ch != end_ch`. -/
theorem parse_cross_chapter_pair_cex :
    findIterRange "민수기 23:27~23:29".data =
      [⟨"민수기".data, 23, 27, some 23, 29, 15⟩] ∧
    resolveBook "민수기".data = some 4 ∧
    parse_bible_text "민수기 23:27~23:29".data = [⟨4, 23, 27, 29⟩] ∧
    parse_bible_text "민수기 23:27~23:29".data ≠
      [⟨4, 23, 27, 27⟩, ⟨4, 23, 29, 29⟩] := by
  refine ⟨by decide, by decide, by decide, by decide⟩

/-! ## C9: the single form -/

/-- C9: for an input with no range-form match whose first single-form match
has a resolvable book name, parse emits exactly one unit
`{book, chapter, start=verse, end=verse}`. -/
theorem parse_single_one_unit (s : List Char) (m : SMatch) (rest : List SMatch) (bk : Nat)
    (h0 : findIterRange s = []) (h1 : findIterSingle s = m :: rest)
    (h2 : resolveBook m.g1 = some bk) :
    parse_bible_text s = [⟨bk, m.ch, m.vs, m.vs⟩] := by
  have hloop : singleLoop (findIterSingle s) = some [⟨bk, m.ch, m.vs, m.vs⟩] := by
    rw [h1]; simpa using singleLoop_first_resolvable [] rest m bk (by simp) h2
  simp only [parse_bible_text, h0, rangeLoop, hloop]

/-- Witness for C9: "시편 1:1" parses to exactly `{book:19, chapter:1,
start:1, end:1}`. -/
theorem parse_single_one_unit_witness :
    parse_bible_text "시편 1:1".data = [⟨19, 1, 1, 1⟩] := by
  exact parse_single_one_unit "시편 1:1".data ⟨"시편".data, 1, 1, 6⟩ [] 19
    (by decide) (by decide) (by decide)

/-! ## C4: tier priority -/

theorem rangeLoop_some_of_resolvable (l : List GMatch)
    (h : ∃ m ∈ l, (resolveBook m.g1).isSome) :
    ∃ m ∈ l, ∃ bk, resolveBook m.g1 = some bk ∧ rangeLoop l = some (emitRange bk m) := by
  induction l with
  | nil => simp at h
  | cons m0 rest ih =>
    cases hres : resolveBook m0.g1 with
    | some bk =>
      exact ⟨m0, List.mem_cons_self m0 rest, bk, hres, by simp only [rangeLoop, hres]⟩
    | none =>
      have h2 : ∃ m ∈ rest, (resolveBook m.g1).isSome := by
        rcases h with ⟨m, hm, hsome⟩
        rcases List.mem_cons.mp hm with rfl | hm2
        · rw [hres] at hsome; simp at hsome
        · exact ⟨m, hm2, hsome⟩
      rcases ih h2 with ⟨m, hm, bk, hbk, hloop⟩
      exact ⟨m, List.mem_cons_of_mem m0 hm, bk, hbk,
        by simp only [rangeLoop, hres]; exact hloop⟩

/-- C4 (amended): the single tier contributes nothing whenever some
range-form match has a RESOLVABLE book name — the whole output then comes
from the range tier.  (As frozen — "only if no range-form match exists
anywhere" — the claim fails: when every range-form match has an unresolvable
book the single tier still runs, see the counterexample.) -/
theorem range_tier_excludes_single (s : List Char)
    (h : ∃ m ∈ findIterRange s, (resolveBook m.g1).isSome) :
    ∃ m ∈ findIterRange s, ∃ bk,
      resolveBook m.g1 = some bk ∧ parse_bible_text s = emitRange bk m := by
  rcases rangeLoop_some_of_resolvable (findIterRange s) h with ⟨m, hm, bk, hbk, hloop⟩
  exact ⟨m, hm, bk, hbk, by simp only [parse_bible_text, hloop]⟩

/-- Witness for C4 (amended), at "민수기 23:27~29". -/
theorem range_tier_excludes_single_witness :
    ∃ m ∈ findIterRange "민수기 23:27~29".data, ∃ bk,
      resolveBook m.g1 = some bk ∧
      parse_bible_text "민수기 23:27~29".data = emitRange bk m := by
  exact range_tier_excludes_single "민수기 23:27~29".data
    ⟨⟨"민수기".data, 23, 27, none, 29, 12⟩, by decide, by decide⟩

/-- Counterexample for C4 as frozen: "가나다 1:2~3 시편 4:5" contains a
range-form match (book "가나다", unresolvable), yet the single-form tier
emits the unit `{book:19, chapter:4, start:5, end:5}`. -/
theorem range_tier_excludes_single_cex :
    findIterRange "가나다 1:2~3 시편 4:5".data =
      [⟨"가나다".data, 1, 2, none, 3, 9⟩] ∧
    resolveBook "가나다".data = none ∧
    parse_bible_text "가나다 1:2~3 시편 4:5".data = [⟨19, 4, 5, 5⟩] := by
  refine ⟨by decide, by decide, by decide⟩

/-! ## C5: first resolvable match wins, unresolvable matches are skipped -/

/-- C5: in each grammar tier, parse returns immediately with the units of
the first match whose book name resolves, ignoring all later matches, while
matches whose book name fails to resolve are skipped and the scan continues;
the single tier runs only when every range-tier match is unresolvable. -/
theorem first_resolvable_match_wins :
    (∀ (s : List Char) (pre post : List GMatch) (m : GMatch) (bk : Nat),
      findIterRange s = pre ++ m :: post →
      (∀ m2 ∈ pre, resolveBook m2.g1 = none) →
      resolveBook m.g1 = some bk →
      parse_bible_text s = emitRange bk m) ∧
    (∀ (s : List Char) (pre post : List SMatch) (m : SMatch) (bk : Nat),
      (∀ m2 ∈ findIterRange s, resolveBook m2.g1 = none) →
      findIterSingle s = pre ++ m :: post →
      (∀ m2 ∈ pre, resolveBook m2.g1 = none) →
      resolveBook m.g1 = some bk →
      parse_bible_text s = [⟨bk, m.ch, m.vs, m.vs⟩]) := by
  constructor
  · intro s pre post m bk h1 hpre hm
    have hloop : rangeLoop (findIterRange s) = some (emitRange bk m) := by
      rw [h1]; exact rangeLoop_first_resolvable pre post m bk hpre hm
    simp only [parse_bible_text, hloop]
  · intro s pre post m bk hr h1 hpre hm
    have hrl : rangeLoop (findIterRange s) = none := rangeLoop_eq_none _ hr
    have hloop : singleLoop (findIterSingle s) = some [⟨bk, m.ch, m.vs, m.vs⟩] := by
      rw [h1]; exact singleLoop_first_resolvable pre post m bk hpre hm
    simp only [parse_bible_text, hrl, hloop]

/-- Witness for C5: in "가나다 1:2~3 민수기 2:3~4" the first range match is
unresolvable and skipped, the second wins; in "가나다 1:2 시편 3:4" the same
happens in the single tier. -/
theorem first_resolvable_match_wins_witness :
    parse_bible_text "가나다 1:2~3 민수기 2:3~4".data = [⟨4, 2, 3, 4⟩] ∧
    parse_bible_text "가나다 1:2 시편 3:4".data = [⟨19, 3, 4, 4⟩] := by
  constructor
  · have h := first_resolvable_match_wins.1 "가나다 1:2~3 민수기 2:3~4".data
      [⟨"가나다".data, 1, 2, none, 3, 9⟩] [] ⟨"민수기".data, 2, 3, none, 4, 19⟩ 4
      (by decide) (by decide) (by decide)
    rw [h]; decide
  · exact first_resolvable_match_wins.2 "가나다 1:2 시편 3:4".data
      [⟨"가나다".data, 1, 2, 7⟩] [] ⟨"시편".data, 3, 4, 14⟩ 19
      (by decide) (by decide) (by decide) (by decide)

/-! ## C3: the VerseRangeUnit invariants -/

theorem bookMapping_vals_bound : ∀ p ∈ bookMapping, 1 ≤ p.2 ∧ p.2 ≤ 66 := by decide

theorem bookGet_bound (k : List Char) (v : Nat) (h : bookGet k = some v) :
    1 ≤ v ∧ v ≤ 66 := by
  unfold bookGet at h
  rw [Option.map_eq_some'] at h
  obtain ⟨p, hf, hv⟩ := h
  rw [← hv]
  exact bookMapping_vals_bound p (List.mem_of_find?_eq_some hf)

theorem resolveBook_bound (raw : List Char) (v : Nat) (h : resolveBook raw = some v) :
    1 ≤ v ∧ v ≤ 66 := by
  unfold resolveBook at h
  cases hg : bookGet raw with
  | some b => rw [hg] at h; injection h with h2; exact h2 ▸ bookGet_bound raw b hg
  | none => rw [hg] at h; exact bookGet_bound _ v h

theorem emitRange_book (bk : Nat) (m : GMatch) (u : VerseUnit) (h : u ∈ emitRange bk m) :
    u.book = bk := by
  simp only [emitRange] at h
  split at h
  · rcases List.mem_cons.mp h with rfl | h2
    · rfl
    · rcases List.mem_cons.mp h2 with rfl | h3
      · rfl
      · simp at h3
  · rcases List.mem_cons.mp h with rfl | h2
    · rfl
    · simp at h2

theorem rangeLoop_book (l : List GMatch) (r : List VerseUnit) (u : VerseUnit)
    (h : rangeLoop l = some r) (hu : u ∈ r) : 1 ≤ u.book ∧ u.book ≤ 66 := by
  induction l with
  | nil => simp [rangeLoop] at h
  | cons m rest ih =>
    cases hres : resolveBook m.g1 with
    | some bk =>
      rw [rangeLoop, hres] at h
      injection h with h2
      subst h2
      have := emitRange_book bk m u hu
      rw [this]
      exact resolveBook_bound m.g1 bk hres
    | none =>
      rw [rangeLoop, hres] at h
      exact ih h

theorem singleLoop_book (l : List SMatch) (r : List VerseUnit) (u : VerseUnit)
    (h : singleLoop l = some r) (hu : u ∈ r) : 1 ≤ u.book ∧ u.book ≤ 66 := by
  induction l with
  | nil => simp [singleLoop] at h
  | cons m rest ih =>
    cases hres : resolveBook m.g1 with
    | some bk =>
      rw [singleLoop, hres] at h
      injection h with h2
      subst h2
      rcases List.mem_cons.mp hu with rfl | h2
      · exact resolveBook_bound m.g1 bk hres
      · simp at h2
    | none =>
      rw [singleLoop, hres] at h
      exact ih h

/-- C3 (amended): every unit produced by parse, for any input, has a book
identifier in [1, 66]; chapter, startVerse and endVerse are merely natural
numbers.  (As frozen the claim fails: the code never checks chapter or verse
positivity nor `endVerse ≥ startVerse`, see the counterexample.) -/
theorem parse_book_bounds (s : List Char) (u : VerseUnit)
    (hu : u ∈ parse_bible_text s) : 1 ≤ u.book ∧ u.book ≤ 66 := by
  unfold parse_bible_text at hu
  cases h1 : rangeLoop (findIterRange s) with
  | some r =>
    rw [h1] at hu
    exact rangeLoop_book _ r u h1 hu
  | none =>
    rw [h1] at hu
    cases h2 : singleLoop (findIterSingle s) with
    | some r =>
      rw [h2] at hu
      exact singleLoop_book _ r u h2 hu
    | none => rw [h2] at hu; simp at hu

/-- Witness for C3 (amended), at "창세기 2:3~5". -/
theorem parse_book_bounds_witness :
    (VerseUnit.mk 1 2 3 5) ∈ parse_bible_text "창세기 2:3~5".data ∧
    1 ≤ (VerseUnit.mk 1 2 3 5).book ∧ (VerseUnit.mk 1 2 3 5).book ≤ 66 := by
  refine ⟨by decide, parse_book_bounds "창세기 2:3~5".data ⟨1, 2, 3, 5⟩ (by decide)⟩

/-- Counterexample for C3 as frozen: "창세기 0:1~0" yields the unit
`{book:1, chapter:0, start:1, end:0}` whose chapter is not positive, whose
endVerse is not positive, and whose endVerse is smaller than its
startVerse. -/
theorem parse_book_bounds_cex :
    parse_bible_text "창세기 0:1~0".data = [⟨1, 0, 1, 0⟩] ∧
    (VerseUnit.mk 1 0 1 0).chapter = 0 ∧
    (VerseUnit.mk 1 0 1 0).stop < (VerseUnit.mk 1 0 1 0).start := by
  refine ⟨by decide, rfl, by decide⟩

/-! ## C10: the ordinal-alias fallback is dead code

The fallback rewrites the Hangul ordinal syllables to digits
(`'일서' -> '1서'` etc.), but every key of `book_mapping` is pure Hangul —
the numeral spellings are NOT keys — so a second lookup on the rewritten
name can never succeed when the exact lookup failed. -/

theorem bookMapping_no_digit :
    ∀ p ∈ bookMapping, ¬('1' ∈ p.1 ∨ '2' ∈ p.1 ∨ '3' ∈ p.1) := by decide

theorem bookGet_none_of_digit (k : List Char)
    (h : '1' ∈ k ∨ '2' ∈ k ∨ '3' ∈ k) : bookGet k = none := by
  unfold bookGet
  cases hf : bookMapping.find? (fun p => p.1 == k) with
  | none => rfl
  | some p =>
    exfalso
    have hk : p.1 = k := by
      have hbeq := List.find?_some hf
      simpa [beq_iff_eq] using hbeq
    exact bookMapping_no_digit p (List.mem_of_find?_eq_some hf) (hk ▸ h)

theorem replacePair_eq_or_mem (p1 p2 r1 r2 : Char) :
    ∀ l, replacePair p1 p2 r1 r2 l = l ∨ r1 ∈ replacePair p1 p2 r1 r2 l
  | [] => Or.inl rfl
  | [c] => Or.inl rfl
  | c1 :: c2 :: rest => by
    by_cases h : c1 = p1 ∧ c2 = p2
    · right
      rw [replacePair, if_pos h]
      exact List.mem_cons_self r1 _
    · rw [replacePair, if_neg h]
      rcases replacePair_eq_or_mem p1 p2 r1 r2 (c2 :: rest) with heq | hmem
      · left; rw [heq]
      · right; exact List.mem_cons_of_mem c1 hmem

/-- C10: the ordinal-alias fallback never resolves a name the exact lookup
missed; the combined resolution behaves exactly like the exact table
lookup. -/
theorem resolveBook_eq_bookGet (raw : List Char) : resolveBook raw = bookGet raw := by
  unfold resolveBook
  cases h : bookGet raw with
  | some b => rfl
  | none =>
    unfold ordinalAlias
    rcases replacePair_eq_or_mem '삼' '서' '3' '서'
      (replacePair '이' '서' '2' '서' (replacePair '일' '서' '1' '서' raw)) with h3 | h3
    · rw [h3]
      rcases replacePair_eq_or_mem '이' '서' '2' '서'
        (replacePair '일' '서' '1' '서' raw) with h2 | h2
      · rw [h2]
        rcases replacePair_eq_or_mem '일' '서' '1' '서' raw with h1 | h1
        · rw [h1, h]
        · exact bookGet_none_of_digit _ (Or.inl h1)
      · exact bookGet_none_of_digit _ (Or.inr (Or.inl h2))
    · exact bookGet_none_of_digit _ (Or.inr (Or.inr h3))

/-! ## C8: empty input vs unparsable input -/

theorem hangul_not_space (c : Char) (h : isHangul c = true) : isSpaceCh c = false := by
  simp only [isHangul, Bool.and_eq_true, decide_eq_true_eq] at h
  simp only [isSpaceCh, Bool.or_eq_false_iff, decide_eq_false_iff_not]
  omega

theorem runLen_hangul_zero (l : List Char) (h : ∀ c ∈ l, isSpaceCh c = true) :
    runLen isHangul l = 0 := by
  cases l with
  | nil => rfl
  | cons c cs =>
    have hfalse : isHangul c = false := by
      cases hh : isHangul c with
      | false => rfl
      | true =>
        have := hangul_not_space c hh
        rw [h c (List.mem_cons_self c cs)] at this
        exact absurd this (by simp)
    simp [runLen, hfalse]

theorem matchRangeAt_spaces (s : List Char) (h : ∀ c ∈ s, isSpaceCh c = true) (i : Nat) :
    matchRangeAt s i = none := by
  unfold matchRangeAt
  have hz : runLen isHangul (s.drop i) = 0 :=
    runLen_hangul_zero _ (fun c hc => h c (List.drop_subset i s hc))
  simp [hz]

theorem matchSingleAt_spaces (s : List Char) (h : ∀ c ∈ s, isSpaceCh c = true) (i : Nat) :
    matchSingleAt s i = none := by
  unfold matchSingleAt
  have hz : runLen isHangul (s.drop i) = 0 :=
    runLen_hangul_zero _ (fun c hc => h c (List.drop_subset i s hc))
  simp [hz]

theorem findFromRange_spaces (s : List Char) (h : ∀ c ∈ s, isSpaceCh c = true) :
    ∀ fuel i, findFromRange s fuel i = [] := by
  intro fuel
  induction fuel with
  | zero => intro i; rfl
  | succ n ih =>
    intro i
    by_cases hc : s.length < i
    · simp [findFromRange, hc]
    · simp [findFromRange, hc, matchRangeAt_spaces s h i, ih (i + 1)]

theorem findFromSingle_spaces (s : List Char) (h : ∀ c ∈ s, isSpaceCh c = true) :
    ∀ fuel i, findFromSingle s fuel i = [] := by
  intro fuel
  induction fuel with
  | zero => intro i; rfl
  | succ n ih =>
    intro i
    by_cases hc : s.length < i
    · simp [findFromSingle, hc]
    · simp [findFromSingle, hc, matchSingleAt_spaces s h i, ih (i + 1)]

theorem strip_eq_nil_iff (s : List Char) :
    strip s = [] ↔ ∀ c ∈ s, isSpaceCh c = true := by
  unfold strip
  rw [List.reverse_eq_nil_iff, List.dropWhile_eq_nil_iff]
  constructor
  · intro h c hc
    have hsplit : c ∈ s.takeWhile isSpaceCh ++ s.dropWhile isSpaceCh := by
      rw [List.takeWhile_append_dropWhile]; exact hc
    rcases List.mem_append.mp hsplit with h1 | h2
    · exact List.mem_takeWhile_imp h1
    · exact h c (List.mem_reverse.mpr h2)
  · intro h c hc
    exact h c ((List.dropWhile_sublist isSpaceCh).subset (List.mem_reverse.mp hc))

/-- C8: an empty or whitespace-only input yields an empty sequence with no
logged parse failure, while a non-whitespace input matching neither grammar
yields an empty sequence WITH a logged parse failure — the two cases are
distinguishable in instrumentation though both return empty. -/
theorem empty_vs_unparsable :
    (∀ s : List Char, strip s = [] →
      parse_bible_text s = [] ∧ parse_logs_failure s = false) ∧
    (∀ s : List Char, strip s ≠ [] → findIterRange s = [] → findIterSingle s = [] →
      parse_bible_text s = [] ∧ parse_logs_failure s = true) := by
  constructor
  · intro s hstrip
    have hsp := (strip_eq_nil_iff s).mp hstrip
    have hr : findIterRange s = [] := findFromRange_spaces s hsp _ _
    have hs : findIterSingle s = [] := findFromSingle_spaces s hsp _ _
    constructor
    · simp [parse_bible_text, hr, hs, rangeLoop, singleLoop]
    · simp [parse_logs_failure, hstrip]
  · intro s hstrip hr hs
    constructor
    · simp [parse_bible_text, hr, hs, rangeLoop, singleLoop]
    · simp [parse_logs_failure, hr, hs, rangeLoop, singleLoop, List.isEmpty_iff, hstrip]

/-- Witness for C8: "   " returns empty silently; "abc" (non-empty, matching
neither grammar) returns empty and logs the failure. -/
theorem empty_vs_unparsable_witness :
    (parse_bible_text "   ".data = [] ∧ parse_logs_failure "   ".data = false) ∧
    (parse_bible_text "abc".data = [] ∧ parse_logs_failure "abc".data = true) := by
  constructor
  · exact empty_vs_unparsable.1 "   ".data (by decide)
  · exact empty_vs_unparsable.2 "abc".data (by decide) (by decide) (by decide)

/-! ## `get_qt_schedule`: the two extraction passes and the merge

HTTP retrieval and BeautifulSoup navigation are external collaborators: the
model takes, for one fetched document, the list of calendar-table cells that
contain both a `day` span and a `bible` span (`TableCell`, their raw texts)
and the list of `person` rows of the calendar-list view that contain all
four cells (`ListRow`, raw span texts).  The Python dict `schedule_data` is
modelled as an insertion-ordered association list: overwriting keeps the
original position, a new key is appended — exactly dict semantics. -/

structure QTRec where
  day : List Char
  bible : List Char
  week : Option (List Char)
  title : Option (List Char)
deriving DecidableEq, Repr

structure TableCell where
  dayText : List Char
  bibleText : List Char
deriving DecidableEq

structure ListRow where
  timeText : List Char
  nameText : List Char
  titleText : List Char
  viewsText : List Char
deriving DecidableEq

/-- `text.strip().replace('\xa0', ' ')`. -/
def cleanText (l : List Char) : List Char :=
  (strip l).map (fun c => if c.toNat = 160 then ' ' else c)

def dictInsert : List (List Char × QTRec) → List Char → QTRec → List (List Char × QTRec)
  | [], k, v => [(k, v)]
  | p :: rest, k, v => if p.1 == k then (k, v) :: rest else p :: dictInsert rest k v

def dictLookup (m : List (List Char × QTRec)) (k : List Char) : Option QTRec :=
  (m.find? (fun p => p.1 == k)).map (fun p => p.2)

/-- One table-pass iteration: insert
`{'day':day,'bible':bible,'week':None,'title':None}` when the stripped day
is non-empty. -/
def tableStep (m : List (List Char × QTRec)) (c : TableCell) : List (List Char × QTRec) :=
  let day := strip c.dayText
  if day.isEmpty then m
  else dictInsert m day ⟨day, cleanText c.bibleText, none, none⟩

/-- The table pass over all qualifying cells. -/
def tablePass (cells : List TableCell) : List (List Char × QTRec) :=
  cells.foldl tableStep []

/-- The record built from one list-view row. -/
def rowRec (r : ListRow) : QTRec :=
  ⟨strip r.timeText, cleanText r.viewsText, some (strip r.nameText), some (strip r.titleText)⟩

/-- One list-pass iteration: overwrite `schedule_data[day]` with the full
record. -/
def listStep (m : List (List Char × QTRec)) (r : ListRow) : List (List Char × QTRec) :=
  dictInsert m (strip r.timeText) (rowRec r)

/-- The list pass over all qualifying rows. -/
def listPass (acc : List (List Char × QTRec)) (rows : List ListRow) : List (List Char × QTRec) :=
  rows.foldl listStep acc

/-- `schedule_data` after both passes. -/
def schedMap (cells : List TableCell) (rows : List ListRow) : List (List Char × QTRec) :=
  listPass (tablePass cells) rows

/-- The sort key `int(x['day'])`. -/
def dayKey (r : QTRec) : Nat :=
  digitsToNat r.day

def isDigitStr (l : List Char) : Bool :=
  !l.isEmpty && l.all isDigitCh

/-- `sorted(schedule_data.values(), key=lambda x: int(x['day']))`.  Python's
sort is stable; `insertionSort` is a stable sort, so it produces the same
sequence.  `none` models the `ValueError` that `int` raises when some day
text is not a numeral (the exception escapes `get_qt_schedule`). -/
def get_qt_schedule_core (cells : List TableCell) (rows : List ListRow) :
    Option (List QTRec) :=
  let vals := (schedMap cells rows).map (fun p => p.2)
  if vals.all (fun r => isDigitStr r.day) then
    some (List.insertionSort (fun a b => dayKey a ≤ dayKey b) vals)
  else none

/-! ## The date resolver and the HTTP endpoint

`pytz`, `datetime` and the network are external: an `Env` supplies which
timezone names resolve, the civil date a UTC instant maps to in a (valid)
timezone, and the outcome of `get_qt_schedule` for a month (`none` models a
fetch failure, i.e. the Python `None`). -/

structure Env where
  validTz : List Char → Bool
  civilDate : Int → List Char → Nat × Nat × Nat
  schedule : Nat → Nat → Option (List QTRec)

/-- `timestamp_to_qt_data_ms`: `pytz.timezone` raising
`UnknownTimeZoneError` is caught inside the function, which then logs and
returns the EMPTY list. -/
def timestamp_to_qt_data_ms (env : Env) (ts : Int) (tz : List Char) : List VerseUnit :=
  if env.validTz tz then
    let ymd := env.civilDate ts tz
    match env.schedule ymd.1 ymd.2.1 with
    | none => []
    | some sched =>
      if sched.isEmpty then []
      else
        match sched.find? (fun r => dayKey r == ymd.2.2) with
        | none => []
        | some r => if r.bible.isEmpty then [] else parse_bible_text r.bible
  else []

inductive ApiResponse where
  | badRequest (msg : String)
  | noData
  | ok (data : List VerseUnit)
deriving DecidableEq

/-- `int(timestamp_ms_str)`: optional sign, at least one digit (Python also
strips surrounding whitespace). -/
def parseIntStr (s : List Char) : Option Int :=
  match strip s with
  | '-' :: ds => if !ds.isEmpty && ds.all isDigitCh then some (-(digitsToNat ds : Int)) else none
  | '+' :: ds => if !ds.isEmpty && ds.all isDigitCh then some ((digitsToNat ds : Int)) else none
  | ds => if !ds.isEmpty && ds.all isDigitCh then some ((digitsToNat ds : Int)) else none

/-- The `/get-qt-bible-data` endpoint: missing/empty `timestamp_ms` and
malformed integers are rejected first, then the timezone is validated with
`pytz.timezone` BEFORE `timestamp_to_qt_data_ms` is invoked. -/
def get_qt_bible_data (env : Env) (tsParam tzParam : Option (List Char)) : ApiResponse :=
  let tzStr := tzParam.getD "Asia/Seoul".data
  match tsParam with
  | none => .badRequest "timestamp_ms parameter is required"
  | some tsStr =>
    if tsStr.isEmpty then .badRequest "timestamp_ms parameter is required"
    else
      match parseIntStr tsStr with
      | none => .badRequest "Invalid timestamp_ms format. Must be an integer."
      | some ts =>
        if env.validTz tzStr then
          let d := timestamp_to_qt_data_ms env ts tzStr
          if d.isEmpty then .noData else .ok d
        else .badRequest "Invalid timezone"

/-! ## Dict lemmas -/

def dictKeys (m : List (List Char × QTRec)) : List (List Char) :=
  m.map (fun p => p.1)

theorem dictKeys_cons (p : List Char × QTRec) (m : List (List Char × QTRec)) :
    dictKeys (p :: m) = p.1 :: dictKeys m := rfl

theorem dictLookup_dictInsert_self (m : List (List Char × QTRec)) (k : List Char) (v : QTRec) :
    dictLookup (dictInsert m k v) k = some v := by
  induction m with
  | nil => simp [dictInsert, dictLookup]
  | cons p rest ih =>
    by_cases hb : (p.1 == k) = true
    · rw [dictInsert, if_pos hb]
      simp [dictLookup]
    · rw [dictInsert, if_neg hb]
      simp only [dictLookup, List.find?_cons, hb]
      exact ih

theorem dictLookup_dictInsert_ne (m : List (List Char × QTRec)) (k d : List Char) (v : QTRec)
    (h : d ≠ k) : dictLookup (dictInsert m k v) d = dictLookup m d := by
  induction m with
  | nil =>
    have : (k == d) = false := by simpa using (Ne.symm h)
    simp [dictInsert, dictLookup, this]
  | cons p rest ih =>
    by_cases hb : (p.1 == k) = true
    · rw [dictInsert, if_pos hb]
      have hk : p.1 = k := by simpa using hb
      have h1 : (k == d) = false := by simpa using (Ne.symm h)
      have h2 : (p.1 == d) = false := by rw [hk]; exact h1
      simp only [dictLookup, List.find?_cons, h1, h2]
    · rw [dictInsert, if_neg hb]
      by_cases hd : (p.1 == d) = true
      · simp only [dictLookup, List.find?_cons, hd]
      · have hd2 : (p.1 == d) = false := by simpa using hd
        simp only [dictLookup, List.find?_cons, hd2]
        exact ih

theorem dictLookup_mem_vals (m : List (List Char × QTRec)) (d : List Char) (v : QTRec)
    (h : dictLookup m d = some v) : v ∈ m.map (fun p => p.2) := by
  unfold dictLookup at h
  rw [Option.map_eq_some'] at h
  obtain ⟨p, hf, hv⟩ := h
  rw [← hv]
  exact List.mem_map_of_mem _ (List.mem_of_find?_eq_some hf)

theorem mem_dictKeys_insert (m : List (List Char × QTRec)) (k : List Char) (v : QTRec)
    (d : List Char) (h : d ∈ dictKeys (dictInsert m k v)) : d ∈ dictKeys m ∨ d = k := by
  induction m with
  | nil =>
    right
    simpa [dictInsert, dictKeys] using h
  | cons p rest ih =>
    by_cases hb : (p.1 == k) = true
    · rw [dictInsert, if_pos hb, dictKeys_cons] at h
      rcases List.mem_cons.mp h with rfl | h2
      · right; rfl
      · left; rw [dictKeys_cons]; exact List.mem_cons_of_mem _ h2
    · rw [dictInsert, if_neg hb, dictKeys_cons] at h
      rcases List.mem_cons.mp h with rfl | h2
      · left; rw [dictKeys_cons]; exact List.mem_cons_self _ _
      · rcases ih h2 with h3 | h3
        · left; rw [dictKeys_cons]; exact List.mem_cons_of_mem _ h3
        · right; exact h3

theorem dictKeys_nodup_insert (m : List (List Char × QTRec)) (k : List Char) (v : QTRec)
    (h : (dictKeys m).Nodup) : (dictKeys (dictInsert m k v)).Nodup := by
  induction m with
  | nil => simp [dictInsert, dictKeys]
  | cons p rest ih =>
    by_cases hb : (p.1 == k) = true
    · have hk : p.1 = k := by simpa using hb
      rw [dictInsert, if_pos hb, dictKeys_cons]
      rw [dictKeys_cons, List.nodup_cons] at h
      rw [List.nodup_cons]
      exact ⟨hk ▸ h.1, h.2⟩
    · have hk : p.1 ≠ k := by simpa using hb
      rw [dictInsert, if_neg hb, dictKeys_cons]
      rw [dictKeys_cons, List.nodup_cons] at h
      rw [List.nodup_cons]
      refine ⟨?_, ih h.2⟩
      intro hmem
      rcases mem_dictKeys_insert rest k v p.1 hmem with h3 | h3
      · exact h.1 h3
      · exact hk h3

theorem dictInsert_dayInv (m : List (List Char × QTRec)) (k : List Char) (v : QTRec)
    (h : ∀ p ∈ m, p.2.day = p.1) (hv : v.day = k) :
    ∀ p ∈ dictInsert m k v, p.2.day = p.1 := by
  induction m with
  | nil =>
    intro p hp
    rw [show dictInsert [] k v = [(k, v)] from rfl] at hp
    rcases List.mem_cons.mp hp with rfl | h2
    · exact hv
    · simp at h2
  | cons q rest ih =>
    intro p hp
    by_cases hb : (q.1 == k) = true
    · rw [dictInsert, if_pos hb] at hp
      rcases List.mem_cons.mp hp with rfl | h2
      · exact hv
      · exact h p (List.mem_cons_of_mem q h2)
    · rw [dictInsert, if_neg hb] at hp
      rcases List.mem_cons.mp hp with rfl | h2
      · exact h p (List.mem_cons_self p rest)
      · exact ih (fun p2 hp2 => h p2 (List.mem_cons_of_mem q hp2)) p h2

/-! ## Pass-level invariants -/

theorem foldl_tableStep_nodup (cells : List TableCell) :
    ∀ acc, (dictKeys acc).Nodup → (dictKeys (cells.foldl tableStep acc)).Nodup := by
  induction cells with
  | nil => intro acc h; exact h
  | cons c rest ih =>
    intro acc h
    refine ih (tableStep acc c) ?_
    simp only [tableStep]
    split
    · exact h
    · exact dictKeys_nodup_insert _ _ _ h

theorem foldl_listStep_nodup (rows : List ListRow) :
    ∀ acc, (dictKeys acc).Nodup → (dictKeys (rows.foldl listStep acc)).Nodup := by
  induction rows with
  | nil => intro acc h; exact h
  | cons r rest ih =>
    intro acc h
    exact ih (listStep acc r) (dictKeys_nodup_insert _ _ _ h)

theorem foldl_tableStep_dayInv (cells : List TableCell) :
    ∀ acc, (∀ p ∈ acc, p.2.day = p.1) →
      ∀ p ∈ cells.foldl tableStep acc, p.2.day = p.1 := by
  induction cells with
  | nil => intro acc h; exact h
  | cons c rest ih =>
    intro acc h
    refine ih (tableStep acc c) ?_
    simp only [tableStep]
    split
    · exact h
    · exact dictInsert_dayInv _ _ _ h rfl

theorem foldl_listStep_dayInv (rows : List ListRow) :
    ∀ acc, (∀ p ∈ acc, p.2.day = p.1) →
      ∀ p ∈ rows.foldl listStep acc, p.2.day = p.1 := by
  induction rows with
  | nil => intro acc h; exact h
  | cons r rest ih =>
    intro acc h
    exact ih (listStep acc r) (dictInsert_dayInv _ _ _ h rfl)

theorem schedMap_keys_nodup (cells : List TableCell) (rows : List ListRow) :
    (dictKeys (schedMap cells rows)).Nodup := by
  unfold schedMap listPass tablePass
  exact foldl_listStep_nodup rows _ (foldl_tableStep_nodup cells [] (by simp [dictKeys]))

theorem schedMap_dayInv (cells : List TableCell) (rows : List ListRow) :
    ∀ p ∈ schedMap cells rows, p.2.day = p.1 := by
  unfold schedMap listPass tablePass
  exact foldl_listStep_dayInv rows _ (foldl_tableStep_dayInv cells [] (by simp))

/-! ## C6: the list pass supersedes the table pass -/

theorem listPass_lookup_last (rows : List ListRow) :
    ∀ (acc : List (List Char × QTRec)) (d : List Char) (lr : ListRow),
      (rows.filter (fun r => strip r.timeText == d)).getLast? = some lr →
      dictLookup (listPass acc rows) d = some (rowRec lr) := by
  induction rows using List.reverseRecOn with
  | nil => intro acc d lr h; simp at h
  | append_singleton rows r ih =>
    intro acc d lr h
    have hfold : listPass acc (rows ++ [r]) =
        dictInsert (listPass acc rows) (strip r.timeText) (rowRec r) := by
      unfold listPass
      rw [List.foldl_append]
      rfl
    rw [List.filter_append] at h
    by_cases hb : (strip r.timeText == d) = true
    · have hfilter : List.filter (fun r => strip r.timeText == d) [r] = [r] := by
        simp [List.filter, hb]
      rw [hfilter, List.getLast?_concat] at h
      injection h with h2
      subst h2
      have hd : strip r.timeText = d := by simpa using hb
      rw [hfold, hd]
      exact dictLookup_dictInsert_self _ _ _
    · have hfilter : List.filter (fun r => strip r.timeText == d) [r] = [] := by
        simp only [List.filter]
        rw [Bool.not_eq_true] at hb
        rw [hb]
      rw [hfilter, List.append_nil] at h
      have hne : d ≠ strip r.timeText := by
        intro hd
        exact hb (by simp [hd])
      rw [hfold, dictLookup_dictInsert_ne _ _ _ _ hne]
      exact ih acc d lr h

/-- C6: if a day has rows in the list pass, the merged record for that day
is exactly the record of the (last) list-pass row for that day — weekLabel,
title and referenceText all come from the list pass, superseding any
table-pass record — and that record is the one appearing in the final
output. -/
theorem list_pass_supersedes (cells : List TableCell) (rows : List ListRow)
    (d : List Char) (lr : ListRow)
    (h : (rows.filter (fun r => strip r.timeText == d)).getLast? = some lr) :
    dictLookup (schedMap cells rows) d = some (rowRec lr) ∧
    ∀ l, get_qt_schedule_core cells rows = some l → rowRec lr ∈ l := by
  have hl := listPass_lookup_last rows (tablePass cells) d lr h
  refine ⟨hl, ?_⟩
  intro l hcore
  simp only [get_qt_schedule_core] at hcore
  split at hcore
  · have hmem : rowRec lr ∈ (schedMap cells rows).map (fun p => p.2) :=
      dictLookup_mem_vals _ _ _ hl
    have hout : some (List.insertionSort (fun a b => dayKey a ≤ dayKey b)
        ((schedMap cells rows).map (fun p => p.2))) = some l := hcore
    injection hout with hout2
    rw [← hout2]
    exact ((List.perm_insertionSort _ _).mem_iff).mpr hmem
  · exact absurd hcore (by simp)

/-- Witness for C6: concrete cells and rows where day "3" appears in both
passes; the final record is the list-pass one. -/
theorem list_pass_supersedes_witness :
    dictLookup
      (schedMap [⟨"3".data, "창세기 1:1".data⟩]
        [⟨"3".data, "수".data, "제목".data, "시편 1:1~3".data⟩]) "3".data =
      some (rowRec ⟨"3".data, "수".data, "제목".data, "시편 1:1~3".data⟩) := by
  exact (list_pass_supersedes [⟨"3".data, "창세기 1:1".data⟩]
    [⟨"3".data, "수".data, "제목".data, "시편 1:1~3".data⟩] "3".data
    ⟨"3".data, "수".data, "제목".data, "시편 1:1~3".data⟩ (by decide)).1

/-! ## C7: order and uniqueness of the returned records -/

/-- C7 (amended): a successfully returned sequence is sorted in
NON-strictly ascending order of numeric day, with pairwise-distinct day
STRINGS (one record per dict key).  (As frozen — "strictly ascending by
numeric day with no duplicate days" — the claim fails: two distinct day
strings such as "01" and "1" denote the same numeric day and survive as two
records, see the counterexample.) -/
theorem schedule_sorted_unique (cells : List TableCell) (rows : List ListRow)
    (l : List QTRec) (h : get_qt_schedule_core cells rows = some l) :
    List.Sorted (fun a b => dayKey a ≤ dayKey b) l ∧
    (l.map (fun r => r.day)).Nodup := by
  simp only [get_qt_schedule_core] at h
  split at h
  · have hout : some (List.insertionSort (fun a b => dayKey a ≤ dayKey b)
        ((schedMap cells rows).map (fun p => p.2))) = some l := h
    injection hout with hout2
    subst hout2
    constructor
    · haveI : IsTotal QTRec (fun a b => dayKey a ≤ dayKey b) :=
        ⟨fun a b => Nat.le_total _ _⟩
      haveI : IsTrans QTRec (fun a b => dayKey a ≤ dayKey b) :=
        ⟨fun _ _ _ hab hbc => Nat.le_trans hab hbc⟩
      exact List.sorted_insertionSort _ _
    · have hperm := (List.perm_insertionSort (fun a b => dayKey a ≤ dayKey b)
        ((schedMap cells rows).map (fun p => p.2))).map (fun r => r.day)
      rw [List.Perm.nodup_iff hperm, List.map_map]
      have heq : (schedMap cells rows).map ((fun r => r.day) ∘ (fun p => p.2)) =
          dictKeys (schedMap cells rows) :=
        List.map_congr_left (fun p hp => schedMap_dayInv cells rows p hp)
      rw [heq]
      exact schedMap_keys_nodup cells rows
  · exact absurd h (by simp)

/-- Witness for C7 (amended): two table cells (days "2", "1") plus one list
row (day "1") produce a sequence sorted ascending by numeric day with
distinct day strings. -/
theorem schedule_sorted_unique_witness :
    List.Sorted (fun a b => dayKey a ≤ dayKey b)
      [⟨"1".data, "시편 1:1~3".data, some "수".data, some "제목".data⟩,
       ⟨"2".data, "창세기 1:1".data, none, none⟩] ∧
    (([⟨"1".data, "시편 1:1~3".data, some "수".data, some "제목".data⟩,
       ⟨"2".data, "창세기 1:1".data, none, none⟩] : List QTRec).map
        (fun r => r.day)).Nodup := by
  exact schedule_sorted_unique
    [⟨"2".data, "창세기 1:1".data⟩, ⟨"1".data, "출애굽기 2:2".data⟩]
    [⟨"1".data, "수".data, "제목".data, "시편 1:1~3".data⟩] _ (by decide)

/-- Counterexample for C7 as frozen: day strings "01" (table pass) and "1"
(list pass) are different dict keys but the same numeric day, so the
returned sequence has two records for numeric day 1 and is not strictly
ascending. -/
theorem schedule_sorted_unique_cex :
    get_qt_schedule_core [⟨"01".data, "x".data⟩]
        [⟨"1".data, "주".data, "t".data, "y".data⟩] =
      some [⟨"01".data, "x".data, none, none⟩,
            ⟨"1".data, "y".data, some "주".data, some "t".data⟩] ∧
    dayKey ⟨"01".data, "x".data, none, none⟩ = 1 ∧
    dayKey ⟨"1".data, "y".data, some "주".data, some "t".data⟩ = 1 ∧
    ¬ List.Sorted (fun a b => dayKey a < dayKey b)
      [⟨"01".data, "x".data, none, none⟩,
       ⟨"1".data, "y".data, some "주".data, some "t".data⟩] := by
  refine ⟨by decide, by decide, by decide, by decide⟩

/-! ## C2: unknown timezone -/

/-- A model environment in which no timezone name is recognised. -/
def envU : Env :=
  ⟨fun _ => false, fun _ _ => (2025, 5, 18), fun _ _ => none⟩

/-- C2 (amended): the HTTP endpoint validates the timezone with
`pytz.timezone` BEFORE invoking the date resolver and answers a distinct
"Invalid timezone" error for an unrecognised name; the date resolver itself,
however, catches `UnknownTimeZoneError` and returns an empty list.  (As
frozen — "the date resolver ... never returns an empty-but-successful
result" — the claim fails, see the counterexample.) -/
theorem unknown_timezone_behavior (env : Env) (ts : Int) (tsStr tz : List Char)
    (hts : parseIntStr tsStr = some ts) (hne : tsStr.isEmpty = false)
    (htz : env.validTz tz = false) :
    get_qt_bible_data env (some tsStr) (some tz) =
      ApiResponse.badRequest "Invalid timezone" ∧
    timestamp_to_qt_data_ms env ts tz = [] := by
  constructor
  · simp only [get_qt_bible_data, Option.getD_some, hne, hts, htz]
    simp
  · simp only [timestamp_to_qt_data_ms, htz]
    simp

/-- Witness for C2 (amended). -/
theorem unknown_timezone_behavior_witness :
    get_qt_bible_data envU (some "1747551764480".data) (some "Mars/Olympus".data) =
      ApiResponse.badRequest "Invalid timezone" ∧
    timestamp_to_qt_data_ms envU 1747551764480 "Mars/Olympus".data = [] := by
  exact unknown_timezone_behavior envU 1747551764480 "1747551764480".data
    "Mars/Olympus".data (by decide) (by decide) rfl

/-- Counterexample for C2 as frozen: called directly with an unknown
timezone name, the date resolver returns the empty list — an
empty-but-successful result, not a surfaced error. -/
theorem unknown_timezone_behavior_cex :
    envU.validTz "Not/A/Zone".data = false ∧
    timestamp_to_qt_data_ms envU 0 "Not/A/Zone".data = [] := by
  exact ⟨rfl, rfl⟩
